import Mathlib

/-!
Verification development for the call-repeat classifier
(`src/call_repeat/repeat_final.py`, function `process_excel`).

The tabular data is embedded shallowly: a row is a list of cell strings, a
table is a column-name list plus a row list.  Timestamps are integers
(seconds); the timestamp parser (`pd.to_datetime` in the source) is a
parameter `parse : String → Option Int` of the pipeline, since its exact
format grammar is a library concern, not logic of this program.  The pandas
stable sort (`sort_values(..., kind="stable")`) is embedded as a stable
insertion sort: the output of a stable sort is uniquely determined by the
key, so any stable sort is an extensionally faithful model.
-/

namespace CallRepeat

abbrev Row := List String

structure Table where
  cols : List String
  rows : List Row
deriving DecidableEq

/-- Constant `EXCLUDE_GROUP = "线上运营组"` from the source. -/
def EXCLUDE_GROUP : String := "线上运营组"

/-- Constant `TIME_WINDOW_HOURS = 24` from the source. -/
def TIME_WINDOW_HOURS : Int := 24

/-- The 24-hour window expressed in seconds, the time unit of the model
(`pd.Timedelta(hours=TIME_WINDOW_HOURS)`). -/
def windowSeconds : Int := TIME_WINDOW_HOURS * 3600

def COL_TIME : String := "开始时间"
def COL_CALLER : String := "主叫号码"
def COL_ANSWER : String := "接听技能组"
def COL_INBOUND : String := "呼入技能组"
def COL_EXT : String := "坐席分机"
def COL_NAME : String := "坐席姓名"

/-- `REQUIRED_COLS` from the source. -/
def REQUIRED_COLS : List String :=
  [COL_TIME, COL_CALLER, COL_ANSWER, COL_INBOUND, COL_EXT, COL_NAME]

/-- The four categorical columns whitespace-normalized by the source. -/
def CAT_COLS : List String := [COL_INBOUND, COL_ANSWER, COL_EXT, COL_NAME]

/-- Characters matched by Python `\s` (and stripped by `str.strip()`). -/
def isPySpace (c : Char) : Bool :=
  decide (c = ' ' ∨ c = '\t' ∨ c = '\n' ∨ c = '\r' ∨ c = '\x0b' ∨ c = '\x0c' ∨
    c = '\u0085' ∨ c = ' ' ∨ c = ' ' ∨
    (' ' ≤ c ∧ c ≤ ' ') ∨
    c = ' ' ∨ c = ' ' ∨ c = ' ' ∨ c = ' ' ∨ c = '　')

/-- Python `str.strip()`: drop leading and trailing whitespace. -/
def pyStrip (s : String) : String :=
  String.mk (((s.data.dropWhile isPySpace).reverse.dropWhile isPySpace).reverse)

/-- Header cleanup `_clean_col`: full-width/non-breaking spaces become plain
spaces, carriage returns and newlines are removed, then the result is
stripped. -/
def clean_col (c : String) : String :=
  pyStrip (String.mk
    (((c.data.map (fun ch => if ch = '　' ∨ ch = ' ' then ' ' else ch)).filter
      (fun ch => !(ch = '\r' ∨ ch = '\n' : Bool)))))

/-- First index of a column label, as `df[col]` selects a column. -/
def colIdx : List String → String → Nat
  | [], _ => 0
  | c0 :: cs, c => if c0 = c then 0 else colIdx cs c + 1

/-- Read the cell of `row` in the column labelled `c`. -/
def getCell (cols : List String) (row : Row) (c : String) : String :=
  row.getD (colIdx cols c) ""

/-- Characters removed from the front of a caller number by the regex
`^[A-Za-z：: ]+`. -/
def isCallerPrefixChar (c : Char) : Bool :=
  decide (('A' ≤ c ∧ c ≤ 'Z') ∨ ('a' ≤ c ∧ c ≤ 'z') ∨ c = '：' ∨ c = ':' ∨ c = ' ')

/-- Caller-number normalization: drop the leading `[A-Za-z：: ]+` run, then
strip. -/
def normCaller (s : String) : String :=
  pyStrip (String.mk (s.data.dropWhile isCallerPrefixChar))

/-- Removal of every whitespace character, the effect of replacing `\s+` by
the empty string. -/
def eraseWs (s : String) : String :=
  String.mk (s.data.filter (fun c => !isPySpace c))

/-- ASCII-sufficient lowercasing used for the `"nan"` comparison. -/
def lowerStr (s : String) : String :=
  String.mk (s.data.map Char.toLower)

/-- Categorical-field normalization: erase all whitespace, then map a value
whose lowercasing is `"nan"` to the empty string. -/
def normCat (s : String) : String :=
  if lowerStr (eraseWs s) = "nan" then "" else eraseWs s

/-- Per-column normalization applied in place by the source: the caller
number is prefix-stripped, the four categorical fields are
whitespace/`"nan"`-normalized, every other cell is untouched. -/
def normField (c v : String) : String :=
  if c = COL_CALLER then normCaller v
  else if c ∈ CAT_COLS then normCat v
  else v

/-- Normalization of one row, column by column; cells beyond the header
length are untouched. -/
def normalizeRow : List String → Row → Row
  | _, [] => []
  | [], row => row
  | c :: cs, v :: vs => normField c v :: normalizeRow cs vs

/-- The row filter of the source: the four categorical cells are non-empty
and the inbound group is not the excluded group. -/
def keepRow (cols : List String) (row : Row) : Bool :=
  decide (getCell cols row COL_INBOUND ≠ "") &&
  decide (getCell cols row COL_ANSWER ≠ "") &&
  decide (getCell cols row COL_EXT ≠ "") &&
  decide (getCell cols row COL_NAME ≠ "") &&
  decide (getCell cols row COL_INBOUND ≠ EXCLUDE_GROUP)

/-- Cleaned column labels of the input table. -/
def cleanedCols (t : Table) : List String := t.cols.map clean_col

/-- Required columns absent after header cleanup. -/
def missingCols (t : Table) : List String :=
  REQUIRED_COLS.filter (fun c => !(cleanedCols t).contains c)

/-- The normalized rows surviving the filter, in source order: the state of
`df_str` after step 3 of the source. -/
def filteredRows (t : Table) : List Row :=
  (t.rows.map (normalizeRow (cleanedCols t))).filter (keepRow (cleanedCols t))

/-- A surviving record: its position in the filtered table (`_rowid`), its
parsed start time, and its (normalized) row. -/
structure CallRec where
  rowid : Nat
  time : Int
  row : Row
deriving DecidableEq

/-- An emitted pair: label `"跨组"`/`"没跨组"` and the two `_rowid`s. -/
structure CallPair where
  label : String
  ridA : Nat
  ridB : Nat
deriving DecidableEq

inductive ProcError where
  | schemaError (missing required : List String)
  | timeParseError
deriving DecidableEq

deriving instance DecidableEq for Except

/-- Parse the start time of every filtered row, numbering rows from `i`;
any unparseable value fails the whole stage (`errors="coerce"` followed by
`isna().any()` and `raise`). -/
def parseRecs (parse : String → Option Int) (cols : List String) :
    List Row → Nat → Option (List CallRec)
  | [], _ => some []
  | r :: rs, i =>
    match parse (getCell cols r COL_TIME), parseRecs parse cols rs (i + 1) with
    | some t, some l => some (⟨i, t, r⟩ :: l)
    | _, _ => none

/-- Stable insertion into a sorted list: the new element goes before the
first element it is `le` to. -/
def insertLe (le : α → α → Bool) (a : α) : List α → List α
  | [] => [a]
  | b :: l => if le a b then a :: b :: l else b :: insertLe le a l

/-- Stable sort (model of `sort_values(..., kind="stable")`). -/
def sortLe (le : α → α → Bool) : List α → List α
  | [] => []
  | a :: l => insertLe le a (sortLe le l)

def callerOf (cols : List String) (r : CallRec) : String :=
  getCell cols r.row COL_CALLER

/-- Code-point lexicographic comparison of character lists, the string order
Python (and hence pandas) sorts by. -/
def ltChars : List Char → List Char → Bool
  | [], [] => false
  | [], _ :: _ => true
  | _ :: _, [] => false
  | a :: as, b :: bs => if a = b then ltChars as bs else decide (a < b)

/-- Python string comparison `s < t`. -/
def strLt (s t : String) : Bool := ltChars s.data t.data

/-- Lexicographic key of `sort_values(["主叫号码", "开始时间"])`. -/
def leCallerTime (cols : List String) (a b : CallRec) : Bool :=
  strLt (callerOf cols a) (callerOf cols b) ||
  (decide (callerOf cols a = callerOf cols b) && decide (a.time ≤ b.time))

/-- The per-group re-sort `g.sort_values("开始时间", kind="stable")`. -/
def timeSort (g : List CallRec) : List CallRec :=
  sortLe (fun a b => decide (a.time ≤ b.time)) g

/-- Records sorted by caller then time. -/
def sortedRecs (cols : List String) (recs : List CallRec) : List CallRec :=
  sortLe (leCallerTime cols) recs

/-- `groupby("主叫号码", sort=False)` on the caller-sorted records: maximal
runs of equal caller number. -/
def callerGroups (cols : List String) (recs : List CallRec) : List (List CallRec) :=
  (sortedRecs cols recs).splitBy (fun a b => callerOf cols a == callerOf cols b)

/-- Label of a candidate pair: `"跨组"` when the predecessor's answered
group differs from the successor's inbound group, else `"没跨组"`. -/
def pairLabel (cols : List String) (a b : CallRec) : String :=
  if getCell cols a.row COL_ANSWER ≠ getCell cols b.row COL_INBOUND
  then "跨组" else "没跨组"

/-- The adjacency walk of one caller group: each record is examined with its
immediate successor only, and the pair is kept when the delta is within the
window. -/
def adjPairs (cols : List String) : List CallRec → List CallPair
  | [] => []
  | [_] => []
  | a :: b :: rest =>
    (if b.time - a.time ≤ windowSeconds
     then [⟨pairLabel cols a b, a.rowid, b.rowid⟩] else [])
    ++ adjPairs cols (b :: rest)

/-- All pairs, grouped by caller, chronological within each caller. -/
def allPairs (cols : List String) (recs : List CallRec) : List CallPair :=
  ((callerGroups cols recs).map (fun g => adjPairs cols (timeSort g))).flatten

/-- Result of the pairing stages: cleaned header, surviving normalized rows
(`df_str` after filtering), and the emitted pairs. -/
structure PairingResult where
  cols : List String
  kept : List Row
  pairs : List CallPair
deriving DecidableEq

/-- Stages 1–5 of `process_excel`: header cleanup, schema check,
normalization, filtering, time parsing, caller/time sorting and adjacency
pairing. -/
def computePairs (parse : String → Option Int) (t : Table) :
    Except ProcError PairingResult :=
  if (missingCols t).isEmpty then
    match parseRecs parse (cleanedCols t) (filteredRows t) 0 with
    | none => Except.error ProcError.timeParseError
    | some recs =>
        Except.ok ⟨cleanedCols t, filteredRows t, allPairs (cleanedCols t) recs⟩
  else Except.error (ProcError.schemaError (missingCols t) REQUIRED_COLS)

/-- `pairs_to_original_rows`: predecessor row then successor row, in pair
order, re-fetched from the filtered string table by `_rowid`. -/
def pairs_to_original_rows (kept : List Row) (ps : List CallPair) : List Row :=
  ps.flatMap (fun p => [kept.getD p.ridA [], kept.getD p.ridB []])

/-- The two output tables and the returned counts. -/
structure ProcResult where
  same : Table
  cross : Table
  nSame : Nat
  nCross : Nat
deriving DecidableEq

/-- `process_excel` minus the file system: stages 1–5 then export.  The
same-group (`没跨组`) table, the cross-group (`跨组`) table and the two
returned counts. -/
def process_excel (parse : String → Option Int) (t : Table) :
    Except ProcError ProcResult :=
  (computePairs parse t).map (fun s =>
    if s.pairs.isEmpty then ⟨⟨s.cols, []⟩, ⟨s.cols, []⟩, 0, 0⟩
    else
      let nc := s.pairs.filter (fun p => p.label == "没跨组")
      let c := s.pairs.filter (fun p => p.label == "跨组")
      ⟨⟨s.cols, pairs_to_original_rows s.kept nc⟩,
       ⟨s.cols, pairs_to_original_rows s.kept c⟩, nc.length, c.length⟩)

/-- Value of a list of decimal digits. -/
def digitsToNat (l : List Char) : Nat :=
  l.foldl (fun n c => n * 10 + (c.toNat - 48)) 0

/-- Concrete timestamp parser used by the witnesses: a decimal count of
seconds. -/
def toNatTime (s : String) : Option Int :=
  if s.data ≠ [] ∧ s.data.all Char.isDigit
  then some (Int.ofNat (digitsToNat s.data)) else none

/-! ### Concrete inputs used by witnesses and counterexamples -/

/-- Three calls of one caller at t0, t0+1h, t0+2h, all inside the window. -/
def tblA : Table :=
  ⟨REQUIRED_COLS,
   [["0", "13800000000", "A", "A", "101", "X"],
    ["3600", "13800000000", "A", "A", "102", "Y"],
    ["7200", "13800000000", "A", "A", "103", "Z"]]⟩

/-- Scenario A: three calls at t0, t0+1h, t0+30h. -/
def tblA30 : Table :=
  ⟨REQUIRED_COLS,
   [["0", "13800000000", "A", "A", "101", "X"],
    ["3600", "13800000000", "A", "A", "102", "Y"],
    ["108000", "13800000000", "A", "A", "103", "Z"]]⟩

/-- Two calls exactly 24h00m00s apart. -/
def tbl24 : Table :=
  ⟨REQUIRED_COLS,
   [["0", "13800000000", "A", "A", "101", "X"],
    ["86400", "13800000000", "B", "A", "102", "Y"]]⟩

/-- Two calls 24h00m01s apart. -/
def tbl24plus : Table :=
  ⟨REQUIRED_COLS,
   [["0", "13800000000", "A", "A", "101", "X"],
    ["86401", "13800000000", "B", "A", "102", "Y"]]⟩

/-- Two calls where the predecessor's answered group carries an internal
space (`"A B"`). -/
def tblWs : Table :=
  ⟨REQUIRED_COLS,
   [["0", "13800000000", "A B", "AB", "101", "X"],
    ["3600", "13800000000", "AB", "AB", "102", "Y"]]⟩

/-- Two calls where the predecessor's answered group differs from the
successor's inbound group (Scenario D, cross case). -/
def tblCross : Table :=
  ⟨REQUIRED_COLS,
   [["0", "13800000000", "A", "A", "101", "X"],
    ["3600", "13800000000", "B", "B", "102", "Y"]]⟩

/-- A header missing the agent-name column. -/
def tblMissing : Table :=
  ⟨[COL_TIME, COL_CALLER, COL_ANSWER, COL_INBOUND, COL_EXT],
   [["0", "13800000000", "A", "A", "101"]]⟩

/-- A surviving record whose start time does not parse. -/
def tblBadTime : Table :=
  ⟨REQUIRED_COLS,
   [["abc", "13800000000", "A", "A", "101", "X"]]⟩

/-- Scenario C: every record belongs to the excluded inbound group. -/
def tblExcluded : Table :=
  ⟨REQUIRED_COLS,
   [["0", "13800000000", "A", "线上运营组", "101", "X"],
    ["3600", "13800000000", "A", "线上运营组", "102", "Y"]]⟩

/-- A row whose agent-name cell is whitespace only. -/
def wsOnlyRow : Row := ["0", "13800000000", "A", "A", "101", "   "]

def recA0 : CallRec := ⟨0, 0, ["0", "13800000000", "A", "A", "101", "X"]⟩

def recA1 : CallRec := ⟨1, 3600, ["3600", "13800000000", "A", "A", "102", "Y"]⟩

def rec24a : CallRec := ⟨0, 0, ["0", "13800000000", "A", "A", "101", "X"]⟩

def rec24b : CallRec := ⟨1, 86400, ["86400", "13800000000", "B", "A", "102", "Y"]⟩

/-! ### Library lemmas about the embedded operations -/

theorem insertLe_perm (le : α → α → Bool) (a : α) :
    ∀ l : List α, List.Perm (insertLe le a l) (a :: l)
  | [] => List.Perm.refl _
  | b :: l => by
    unfold insertLe
    split
    · exact List.Perm.refl _
    · exact ((insertLe_perm le a l).cons b).trans (List.Perm.swap a b l)

theorem sortLe_perm (le : α → α → Bool) : ∀ l : List α, List.Perm (sortLe le l) l
  | [] => List.Perm.refl _
  | a :: l => (insertLe_perm le a (sortLe le l)).trans ((sortLe_perm le l).cons a)

theorem pairwise_insertLe {le : α → α → Bool}
    (htr : ∀ a b c, le a b = true → le b c = true → le a c = true)
    (hto : ∀ a b, le a b = true ∨ le b a = true) (a : α) :
    ∀ {l : List α}, l.Pairwise (fun x y => le x y = true) →
      (insertLe le a l).Pairwise (fun x y => le x y = true)
  | [], _ => by simp [insertLe]
  | b :: l, h => by
    rw [List.pairwise_cons] at h
    unfold insertLe
    split
    next hab =>
      refine List.pairwise_cons.2 ⟨?_, List.pairwise_cons.2 h⟩
      intro x hx
      rcases List.mem_cons.1 hx with hx | hx
      · exact hx ▸ hab
      · exact htr a b x hab (h.1 x hx)
    next hab =>
      refine List.pairwise_cons.2 ⟨?_, pairwise_insertLe htr hto a h.2⟩
      intro x hx
      rcases List.mem_cons.1 ((insertLe_perm le a l).mem_iff.1 hx) with hx | hx
      · subst hx
        rcases hto x b with hab2 | hba
        · exact absurd hab2 hab
        · exact hba
      · exact h.1 x hx

theorem pairwise_sortLe {le : α → α → Bool}
    (htr : ∀ a b c, le a b = true → le b c = true → le a c = true)
    (hto : ∀ a b, le a b = true ∨ le b a = true) :
    ∀ l : List α, (sortLe le l).Pairwise (fun x y => le x y = true)
  | [] => List.Pairwise.nil
  | a :: l => pairwise_insertLe htr hto a (pairwise_sortLe htr hto l)

theorem pairwise_timeSort (g : List CallRec) :
    (timeSort g).Pairwise (fun x y => x.time ≤ y.time) := by
  have h := @pairwise_sortLe CallRec (fun a b : CallRec => decide (a.time ≤ b.time))
    (fun a b c hab hbc => by
      simp only [decide_eq_true_eq] at hab hbc ⊢; omega)
    (fun a b => by
      simp only [decide_eq_true_eq]; omega) g
  exact h.imp (fun hx => by simpa using hx)

theorem mem_timeSort {g : List CallRec} {r : CallRec} :
    r ∈ timeSort g ↔ r ∈ g :=
  (sortLe_perm _ g).mem_iff

theorem parseRecs_eq_none_iff (parse : String → Option Int) (cols : List String) :
    ∀ (rows : List Row) (i : Nat),
      parseRecs parse cols rows i = none ↔
        ∃ r ∈ rows, parse (getCell cols r COL_TIME) = none
  | [], i => by simp [parseRecs]
  | r :: rs, i => by
    rw [parseRecs]
    rcases hp : parse (getCell cols r COL_TIME) with _ | t <;>
      rcases hrest : parseRecs parse cols rs (i + 1) with _ | l
    · constructor
      · intro _
        exact ⟨r, List.mem_cons_self r rs, hp⟩
      · intro _
        rfl
    · constructor
      · intro _
        exact ⟨r, List.mem_cons_self r rs, hp⟩
      · intro _
        rfl
    · constructor
      · intro _
        rcases (parseRecs_eq_none_iff parse cols rs (i + 1)).1 hrest with ⟨r0, hr0, hr0p⟩
        exact ⟨r0, List.mem_cons_of_mem r hr0, hr0p⟩
      · intro _
        rfl
    · constructor
      · intro hfalse
        cases hfalse
      · rintro ⟨r0, hr0, hr0p⟩
        rcases List.mem_cons.1 hr0 with hr0 | hr0
        · subst hr0
          rw [hr0p] at hp
          cases hp
        · have hnone := (parseRecs_eq_none_iff parse cols rs (i + 1)).2 ⟨r0, hr0, hr0p⟩
          rw [hnone] at hrest
          cases hrest

theorem mem_of_parseRecs (parse : String → Option Int) (cols : List String) :
    ∀ (rows : List Row) (i : Nat) (recs : List CallRec),
      parseRecs parse cols rows i = some recs → ∀ r ∈ recs,
        i ≤ r.rowid ∧ r.rowid - i < rows.length ∧
        rows.getD (r.rowid - i) [] = r.row ∧
        parse (getCell cols r.row COL_TIME) = some r.time
  | [], i, recs, h => by
    simp only [parseRecs, Option.some.injEq] at h
    subst h; intro r hr; cases hr
  | row :: rs, i, recs, h => by
    rw [parseRecs] at h
    rcases hp : parse (getCell cols row COL_TIME) with _ | t <;> rw [hp] at h
    · cases h
    rcases hrest : parseRecs parse cols rs (i + 1) with _ | l <;> rw [hrest] at h
    · cases h
    simp only [Option.some.injEq] at h
    subst h
    intro r hr
    rcases List.mem_cons.1 hr with hr | hr
    · subst hr
      refine ⟨Nat.le_refl i, ?_, ?_, hp⟩ <;> simp
    · have := mem_of_parseRecs parse cols rs (i + 1) l hrest r hr
      refine ⟨by omega, by simp; omega, ?_, this.2.2.2⟩
      have hidx : r.rowid - i = (r.rowid - (i + 1)) + 1 := by omega
      rw [hidx, List.getD_cons_succ]
      exact this.2.2.1

theorem mem_of_parseRecs_zero {parse : String → Option Int} {cols : List String}
    {rows : List Row} {recs : List CallRec}
    (h : parseRecs parse cols rows 0 = some recs) {r : CallRec} (hr : r ∈ recs) :
    r.rowid < rows.length ∧ rows.getD r.rowid [] = r.row ∧
    parse (getCell cols r.row COL_TIME) = some r.time := by
  have := mem_of_parseRecs parse cols rows 0 recs h r hr
  simpa using this

theorem mem_adjPairs {cols : List String} :
    ∀ {l : List CallRec} {p : CallPair}, p ∈ adjPairs cols l →
      ∃ i a b, l[i]? = some a ∧ l[i + 1]? = some b ∧
        b.time - a.time ≤ windowSeconds ∧
        p = ⟨pairLabel cols a b, a.rowid, b.rowid⟩
  | [], p, h => by cases h
  | [_], p, h => by cases h
  | a :: b :: rest, p, h => by
    rw [adjPairs] at h
    rcases List.mem_append.1 h with h | h
    · split at h
      next hw =>
        simp only [List.mem_singleton] at h
        exact ⟨0, a, b, by simp, by simp, hw, h⟩
      next => cases h
    · rcases mem_adjPairs h with ⟨i, a0, b0, ha0, hb0, hw, hp⟩
      exact ⟨i + 1, a0, b0, by simpa using ha0, by simpa using hb0, hw, hp⟩

theorem length_adjPairs (cols : List String) :
    ∀ l : List CallRec, (adjPairs cols l).length ≤ l.length - 1
  | [] => by simp [adjPairs]
  | [a] => by simp [adjPairs]
  | a :: b :: rest => by
    rw [adjPairs]
    have h := length_adjPairs cols (b :: rest)
    simp only [List.length_append, List.length_cons] at h ⊢
    split <;> simp <;> omega

theorem head_mem_adjPairs {cols : List String} {a b : CallRec} (rest : List CallRec)
    (h : b.time - a.time ≤ windowSeconds) :
    (⟨pairLabel cols a b, a.rowid, b.rowid⟩ : CallPair) ∈ adjPairs cols (a :: b :: rest) := by
  rw [adjPairs, if_pos h]
  exact List.mem_append.2 (Or.inl (List.mem_singleton.2 rfl))

theorem mem_allPairs {cols : List String} {recs : List CallRec} {p : CallPair}
    (h : p ∈ allPairs cols recs) :
    ∃ g, g ∈ callerGroups cols recs ∧ p ∈ adjPairs cols (timeSort g) := by
  rcases List.mem_flatten.1 h with ⟨ps, hps, hp⟩
  rcases List.mem_map.1 hps with ⟨g, hg, rfl⟩
  exact ⟨g, hg, hp⟩

theorem mem_recs_of_mem_group {cols : List String} {recs : List CallRec}
    {g : List CallRec} {r : CallRec}
    (hg : g ∈ callerGroups cols recs) (hr : r ∈ g) : r ∈ recs := by
  have hmem : r ∈ sortedRecs cols recs := by
    rw [← List.flatten_splitBy (fun a b => callerOf cols a == callerOf cols b)
      (sortedRecs cols recs)]
    exact List.mem_flatten.2 ⟨g, hg, hr⟩
  exact (sortLe_perm (leCallerTime cols) recs).mem_iff.1 hmem

theorem exists_recs_of_mem_allPairs {cols : List String} {recs : List CallRec}
    {p : CallPair} (h : p ∈ allPairs cols recs) :
    ∃ a b : CallRec, a ∈ recs ∧ b ∈ recs ∧ a.time ≤ b.time ∧
      b.time - a.time ≤ windowSeconds ∧
      p = ⟨pairLabel cols a b, a.rowid, b.rowid⟩ := by
  rcases mem_allPairs h with ⟨g, hg, hpg⟩
  rcases mem_adjPairs hpg with ⟨i, a, b, ha, hb, hw, hp⟩
  have hia := List.getElem?_eq_some_iff.1 ha
  have hib := List.getElem?_eq_some_iff.1 hb
  rcases hia with ⟨hilt, hieq⟩
  rcases hib with ⟨hjlt, hjeq⟩
  have hsorted := pairwise_timeSort g
  have hle : a.time ≤ b.time := by
    have := List.pairwise_iff_getElem.1 hsorted i (i + 1) hilt hjlt (by omega)
    rwa [hieq, hjeq] at this
  have hag : a ∈ g := mem_timeSort.1 (hieq ▸ List.getElem_mem hilt)
  have hbg : b ∈ g := mem_timeSort.1 (hjeq ▸ List.getElem_mem hjlt)
  exact ⟨a, b, mem_recs_of_mem_group hg hag, mem_recs_of_mem_group hg hbg, hle, hw, hp⟩

theorem computePairs_ok {parse : String → Option Int} {t : Table} {s : PairingResult}
    (h : computePairs parse t = Except.ok s) :
    s.cols = cleanedCols t ∧ s.kept = filteredRows t ∧
    ∃ recs, parseRecs parse (cleanedCols t) (filteredRows t) 0 = some recs ∧
      s.pairs = allPairs (cleanedCols t) recs := by
  unfold computePairs at h
  split at h
  · split at h
    · cases h
    next recs heq =>
      rcases Except.ok.inj h with rfl
      exact ⟨rfl, rfl, recs, heq, rfl⟩
  · cases h

theorem computePairs_missing {parse : String → Option Int} {t : Table}
    (h : ¬(missingCols t).isEmpty = true) :
    computePairs parse t = Except.error (ProcError.schemaError (missingCols t) REQUIRED_COLS) := by
  unfold computePairs
  rw [if_neg h]

theorem computePairs_parse_fail {parse : String → Option Int} {t : Table}
    (hm : (missingCols t).isEmpty = true)
    (h : parseRecs parse (cleanedCols t) (filteredRows t) 0 = none) :
    computePairs parse t = Except.error ProcError.timeParseError := by
  unfold computePairs
  rw [if_pos hm, h]

theorem normCaller_empty : normCaller "" = "" := by decide

theorem normCat_empty : normCat "" = "" := by decide

theorem normField_empty (c : String) : normField c "" = "" := by
  unfold normField
  split
  · exact normCaller_empty
  · split
    · exact normCat_empty
    · rfl

theorem colIdx_lt_of_mem : ∀ {cols : List String} {c : String}, c ∈ cols →
    colIdx cols c < cols.length
  | [], c, h => by cases h
  | c0 :: cs, c, h => by
    rw [colIdx]
    split
    · simp
    next hne =>
      have hc : c ∈ cs := by
        rcases List.mem_cons.1 h with h | h
        · exact absurd h.symm hne
        · exact h
      simpa using Nat.succ_lt_succ (colIdx_lt_of_mem hc)

theorem getD_colIdx : ∀ {cols : List String} {c : String}, c ∈ cols →
    cols.getD (colIdx cols c) "" = c
  | [], c, h => by cases h
  | c0 :: cs, c, h => by
    rw [colIdx]
    split
    next heq => simpa using heq
    next hne =>
      have hc : c ∈ cs := by
        rcases List.mem_cons.1 h with h | h
        · exact absurd h.symm hne
        · exact h
      simpa using getD_colIdx hc

theorem colIdx_of_not_mem : ∀ {cols : List String} {c : String}, c ∉ cols →
    colIdx cols c = cols.length
  | [], c, _ => rfl
  | c0 :: cs, c, h => by
    rw [colIdx]
    split
    next heq => exact absurd (heq ▸ List.mem_cons_self c0 cs) h
    next =>
      have hc : c ∉ cs := fun hmem => h (List.mem_cons_of_mem c0 hmem)
      simpa using colIdx_of_not_mem hc

theorem getD_normalizeRow : ∀ (cols : List String) (row : Row) (i : Nat),
    (normalizeRow cols row).getD i "" =
      (if _h : i < cols.length then normField (cols.getD i "") (row.getD i "")
       else row.getD i "")
  | cols, [], i => by
    cases cols <;>
    · rw [normalizeRow]
      split
      next => simp [normField_empty]
      next => simp
  | [], v :: vs, i => by
    simp [normalizeRow]
  | c :: cs, v :: vs, i => by
    rw [normalizeRow]
    cases i with
    | zero => simp
    | succ j =>
      simp only [List.getD_cons_succ, List.length_cons]
      rw [getD_normalizeRow cs vs j]
      split
      next h => rw [dif_pos (by omega)]
      next h => rw [dif_neg (by omega)]

theorem getCell_normalizeRow (cols : List String) (row : Row) (c : String) :
    getCell cols (normalizeRow cols row) c =
      (if c ∈ cols then normField c (getCell cols row c) else getCell cols row c) := by
  unfold getCell
  by_cases hc : c ∈ cols
  · rw [if_pos hc, getD_normalizeRow, dif_pos (colIdx_lt_of_mem hc), getD_colIdx hc]
  · rw [if_neg hc, getD_normalizeRow, dif_neg]
    rw [colIdx_of_not_mem hc]
    omega

theorem mem_filteredRows {t : Table} {r : Row} (h : r ∈ filteredRows t) :
    keepRow (cleanedCols t) r = true ∧
    ∃ src, src ∈ t.rows ∧ r = normalizeRow (cleanedCols t) src := by
  unfold filteredRows at h
  have hk := List.of_mem_filter h
  have hm := List.mem_of_mem_filter h
  rcases List.mem_map.1 hm with ⟨src, hsrc, rfl⟩
  exact ⟨hk, src, hsrc, rfl⟩

theorem filteredRows_sublist (t : Table) :
    List.Sublist (filteredRows t) (t.rows.map (normalizeRow (cleanedCols t))) :=
  List.filter_sublist _

theorem getD_mem_of_lt {l : List Row} {i : Nat} (h : i < l.length) :
    l.getD i [] ∈ l := by
  rw [List.getD_eq_getElem l [] h]
  exact List.getElem_mem h

theorem mem_pairs_to_original_rows {kept : List Row} {ps : List CallPair} {row : Row}
    (h : row ∈ pairs_to_original_rows kept ps) :
    ∃ p, p ∈ ps ∧ (row = kept.getD p.ridA [] ∨ row = kept.getD p.ridB []) := by
  unfold pairs_to_original_rows at h
  rcases List.mem_flatMap.1 h with ⟨p, hp, hrow⟩
  rcases List.mem_cons.1 hrow with hrow | hrow
  · exact ⟨p, hp, Or.inl hrow⟩
  · rcases List.mem_cons.1 hrow with hrow | hrow
    · exact ⟨p, hp, Or.inr hrow⟩
    · cases hrow

theorem process_excel_eq_map (parse : String → Option Int) (t : Table) :
    process_excel parse t = (computePairs parse t).map (fun s =>
      if s.pairs.isEmpty then ⟨⟨s.cols, []⟩, ⟨s.cols, []⟩, 0, 0⟩
      else
        let nc := s.pairs.filter (fun p => p.label == "没跨组")
        let c := s.pairs.filter (fun p => p.label == "跨组")
        ⟨⟨s.cols, pairs_to_original_rows s.kept nc⟩,
         ⟨s.cols, pairs_to_original_rows s.kept c⟩, nc.length, c.length⟩) := rfl

theorem process_excel_ok {parse : String → Option Int} {t : Table} {res : ProcResult}
    (h : process_excel parse t = Except.ok res) :
    ∃ s, computePairs parse t = Except.ok s ∧
      (res = if s.pairs.isEmpty then ⟨⟨s.cols, []⟩, ⟨s.cols, []⟩, 0, 0⟩
       else
         ⟨⟨s.cols, pairs_to_original_rows s.kept (s.pairs.filter (fun p => p.label == "没跨组"))⟩,
          ⟨s.cols, pairs_to_original_rows s.kept (s.pairs.filter (fun p => p.label == "跨组"))⟩,
          (s.pairs.filter (fun p => p.label == "没跨组")).length,
          (s.pairs.filter (fun p => p.label == "跨组")).length⟩) := by
  rw [process_excel_eq_map] at h
  rcases hcp : computePairs parse t with e | s
  · rw [hcp] at h
    cases h
  · rw [hcp] at h
    refine ⟨s, rfl, ?_⟩
    have := Except.ok.inj h
    exact this.symm

theorem normCat_of_all_space {s : String}
    (h : ∀ c ∈ s.data, isPySpace c = true) : normCat s = "" := by
  have hf : s.data.filter (fun c => !isPySpace c) = [] :=
    List.filter_eq_nil_iff.2 (fun a ha => by simp [h a ha])
  unfold normCat eraseWs
  rw [hf]
  decide

theorem keepRow_normalizeRow_of_space_name {cols : List String} {row : Row}
    (hmem : COL_NAME ∈ cols)
    (hws : ∀ c ∈ (getCell cols row COL_NAME).data, isPySpace c = true) :
    keepRow cols (normalizeRow cols row) = false := by
  have hcell : getCell cols (normalizeRow cols row) COL_NAME = "" := by
    rw [getCell_normalizeRow, if_pos hmem]
    have hnf : normField COL_NAME (getCell cols row COL_NAME) =
        normCat (getCell cols row COL_NAME) := by
      unfold normField
      rw [if_neg (by decide), if_pos (by decide)]
    rw [hnf, normCat_of_all_space hws]
  unfold keepRow
  rw [hcell]
  simp

/-! ### Claim theorems -/

/-- C2: in the adjacency walk of a time-sorted caller partition, every
emitted pair links a record at some position `i` to its immediate successor
at `i + 1`, so a partition of `n` records yields at most `n - 1` pairs;
concretely, a caller with three calls all inside the window yields exactly
the two pairs (0,1) and (1,2), the middle record appearing in both, and in
Scenario A (calls at t0, t0+1h, t0+30h) only the pair (0,1) is produced. -/
theorem C2_adjacency_only :
    (∀ (cols : List String) (l : List CallRec) (p : CallPair), p ∈ adjPairs cols l →
      ∃ i a b, l[i]? = some a ∧ l[i + 1]? = some b ∧
        p.ridA = a.rowid ∧ p.ridB = b.rowid) ∧
    (∀ (cols : List String) (l : List CallRec),
      (adjPairs cols l).length ≤ l.length - 1) ∧
    computePairs toNatTime tblA = Except.ok ⟨REQUIRED_COLS, tblA.rows,
      [⟨"没跨组", 0, 1⟩, ⟨"没跨组", 1, 2⟩]⟩ ∧
    computePairs toNatTime tblA30 = Except.ok ⟨REQUIRED_COLS, tblA30.rows,
      [⟨"没跨组", 0, 1⟩]⟩ := by
  refine ⟨?_, length_adjPairs, by decide, by decide⟩
  intro cols l p hp
  rcases mem_adjPairs hp with ⟨i, a, b, ha, hb, _, rfl⟩
  exact ⟨i, a, b, ha, hb, rfl, rfl⟩

/-- Witness for C2: the adjacency property applied to the concrete
two-record walk of `tblA`'s caller. -/
theorem C2_adjacency_only_witness :
    ∃ i a b, ([recA0, recA1] : List CallRec)[i]? = some a ∧
      [recA0, recA1][i + 1]? = some b ∧
      (⟨"没跨组", 0, 1⟩ : CallPair).ridA = a.rowid ∧
      (⟨"没跨组", 0, 1⟩ : CallPair).ridB = b.rowid :=
  C2_adjacency_only.1 REQUIRED_COLS [recA0, recA1] ⟨"没跨组", 0, 1⟩ (by decide)

/-- C3: an adjacent candidate pair is emitted iff the successor's time minus
the predecessor's is at most 24 hours (closed bound): every emitted pair
satisfies the bound, every adjacent step satisfying the bound is emitted,
a delta of exactly 24h00m00s yields the pair, and a delta of 24h00m01s
yields no pair while the run still succeeds (silent drop, no error). -/
theorem C3_window_closed_bound :
    (∀ (cols : List String) (l : List CallRec) (p : CallPair), p ∈ adjPairs cols l →
      ∃ i a b, l[i]? = some a ∧ l[i + 1]? = some b ∧
        b.time - a.time ≤ windowSeconds ∧
        p = ⟨pairLabel cols a b, a.rowid, b.rowid⟩) ∧
    (∀ (cols : List String) (a b : CallRec) (rest : List CallRec),
      b.time - a.time ≤ windowSeconds →
      (⟨pairLabel cols a b, a.rowid, b.rowid⟩ : CallPair) ∈ adjPairs cols (a :: b :: rest)) ∧
    (process_excel toNatTime tbl24).map (fun r => (r.nSame, r.nCross)) =
      Except.ok (1, 0) ∧
    process_excel toNatTime tbl24plus =
      Except.ok ⟨⟨REQUIRED_COLS, []⟩, ⟨REQUIRED_COLS, []⟩, 0, 0⟩ := by
  refine ⟨?_, ?_, by decide, by decide⟩
  · intro cols l p hp
    exact mem_adjPairs hp
  · intro cols a b rest h
    exact head_mem_adjPairs rest h

/-- Witness for C3: the emission direction applied to the concrete pair of
`tbl24`, whose delta is exactly 24 hours. -/
theorem C3_window_closed_bound_witness :
    (⟨pairLabel REQUIRED_COLS rec24a rec24b, rec24a.rowid, rec24b.rowid⟩ : CallPair) ∈
      adjPairs REQUIRED_COLS [rec24a, rec24b] :=
  C3_window_closed_bound.2.1 REQUIRED_COLS rec24a rec24b [] (by decide)

/-- C4: every pair emitted by the pairing stages carries label `"跨组"`
exactly when the predecessor's answered group differs (string equality)
from the successor's inbound group, and `"没跨组"` otherwise; no other
label occurs. -/
theorem C4_classification (parse : String → Option Int) (t : Table)
    (s : PairingResult) (h : computePairs parse t = Except.ok s)
    (p : CallPair) (hp : p ∈ s.pairs) :
    (p.label = "跨组" ∨ p.label = "没跨组") ∧
    (p.label = "跨组" ↔
      getCell s.cols (s.kept.getD p.ridA []) COL_ANSWER ≠
        getCell s.cols (s.kept.getD p.ridB []) COL_INBOUND) := by
  obtain ⟨hcols, hkept, recs, hrecs, hpairs⟩ := computePairs_ok h
  rw [hpairs] at hp
  obtain ⟨a, b, ha, hb, _, _, rfl⟩ := exists_recs_of_mem_allPairs hp
  obtain ⟨_, haeq, _⟩ := mem_of_parseRecs_zero hrecs ha
  obtain ⟨_, hbeq, _⟩ := mem_of_parseRecs_zero hrecs hb
  constructor
  · unfold pairLabel
    split
    · exact Or.inl rfl
    · exact Or.inr rfl
  · show pairLabel (cleanedCols t) a b = "跨组" ↔ _
    rw [hcols, hkept]
    show _ ↔ getCell (cleanedCols t) ((filteredRows t).getD a.rowid []) COL_ANSWER ≠
      getCell (cleanedCols t) ((filteredRows t).getD b.rowid []) COL_INBOUND
    rw [haeq, hbeq]
    unfold pairLabel
    split
    next hne => simpa using hne
    next hne => simpa using hne

/-- Witness for C4: the classification applied to the single pair of
`tbl24`, which is same-group. -/
theorem C4_classification_witness :
    ((⟨"没跨组", 0, 1⟩ : CallPair).label = "跨组" ∨
      (⟨"没跨组", 0, 1⟩ : CallPair).label = "没跨组") ∧
    ((⟨"没跨组", 0, 1⟩ : CallPair).label = "跨组" ↔
      getCell REQUIRED_COLS (tbl24.rows.getD 0 []) COL_ANSWER ≠
        getCell REQUIRED_COLS (tbl24.rows.getD 1 []) COL_INBOUND) :=
  C4_classification toNatTime tbl24 ⟨REQUIRED_COLS, tbl24.rows, [⟨"没跨组", 0, 1⟩]⟩
    (by decide) ⟨"没跨组", 0, 1⟩ (by decide)

/-- C9: for every pair emitted by the pairing stages, the parsed start time
of the predecessor row is at most that of the successor row, so the delta
lies in the closed interval [0, 24h]; the ascending time sort of each
caller partition makes the negative deltas (which the window test alone
would accept) unreachable. -/
theorem C9_delta_nonnegative (parse : String → Option Int) (t : Table)
    (s : PairingResult) (h : computePairs parse t = Except.ok s)
    (p : CallPair) (hp : p ∈ s.pairs) :
    ∃ ta tb : Int,
      parse (getCell s.cols (s.kept.getD p.ridA []) COL_TIME) = some ta ∧
      parse (getCell s.cols (s.kept.getD p.ridB []) COL_TIME) = some tb ∧
      0 ≤ tb - ta ∧ tb - ta ≤ windowSeconds := by
  obtain ⟨hcols, hkept, recs, hrecs, hpairs⟩ := computePairs_ok h
  rw [hpairs] at hp
  obtain ⟨a, b, ha, hb, hle, hwin, rfl⟩ := exists_recs_of_mem_allPairs hp
  obtain ⟨_, haeq, hat⟩ := mem_of_parseRecs_zero hrecs ha
  obtain ⟨_, hbeq, hbt⟩ := mem_of_parseRecs_zero hrecs hb
  refine ⟨a.time, b.time, ?_, ?_, by omega, hwin⟩
  · show parse (getCell s.cols (s.kept.getD a.rowid []) COL_TIME) = some a.time
    rw [hcols, hkept, haeq, hat]
  · show parse (getCell s.cols (s.kept.getD b.rowid []) COL_TIME) = some b.time
    rw [hcols, hkept, hbeq, hbt]

/-- Witness for C9: the delta bounds applied to the single pair of
`tbl24`. -/
theorem C9_delta_nonnegative_witness :
    ∃ ta tb : Int,
      toNatTime (getCell REQUIRED_COLS (tbl24.rows.getD 0 []) COL_TIME) = some ta ∧
      toNatTime (getCell REQUIRED_COLS (tbl24.rows.getD 1 []) COL_TIME) = some tb ∧
      0 ≤ tb - ta ∧ tb - ta ≤ windowSeconds :=
  C9_delta_nonnegative toNatTime tbl24 ⟨REQUIRED_COLS, tbl24.rows, [⟨"没跨组", 0, 1⟩]⟩
    (by decide) ⟨"没跨组", 0, 1⟩ (by decide)

/-- C5: a (normalized) record survives the filter exactly when its four
categorical cells are non-empty and its inbound group is not the excluded
group; the surviving rows are a sublist (hence in unchanged relative order)
of the normalized source rows; filtering has no error outcome, and when
nothing survives the run still succeeds, producing two empty-but-headered
outputs and counts (0, 0). -/
theorem C5_filter_iff (parse : String → Option Int) (t : Table) :
    (∀ row : Row, keepRow (cleanedCols t) row = true ↔
      (getCell (cleanedCols t) row COL_INBOUND ≠ "" ∧
       getCell (cleanedCols t) row COL_ANSWER ≠ "" ∧
       getCell (cleanedCols t) row COL_EXT ≠ "" ∧
       getCell (cleanedCols t) row COL_NAME ≠ "" ∧
       getCell (cleanedCols t) row COL_INBOUND ≠ EXCLUDE_GROUP)) ∧
    List.Sublist (filteredRows t) (t.rows.map (normalizeRow (cleanedCols t))) ∧
    ((missingCols t).isEmpty = true → filteredRows t = [] →
      process_excel parse t =
        Except.ok ⟨⟨cleanedCols t, []⟩, ⟨cleanedCols t, []⟩, 0, 0⟩) := by
  refine ⟨?_, filteredRows_sublist t, ?_⟩
  · intro row
    unfold keepRow
    simp [-ne_eq, and_assoc]
  · intro hm hempty
    have hcp : computePairs parse t =
        Except.ok ⟨cleanedCols t, filteredRows t, allPairs (cleanedCols t) []⟩ := by
      unfold computePairs
      rw [if_pos hm, hempty]
      rfl
    rw [process_excel_eq_map, hcp, hempty]
    rfl

/-- Witness for C5: the zero-survivor branch applied to Scenario C
(`tblExcluded`), and the filter characterization applied to its first
normalized row, which is dropped. -/
theorem C5_filter_iff_witness :
    process_excel toNatTime tblExcluded =
      Except.ok ⟨⟨cleanedCols tblExcluded, []⟩, ⟨cleanedCols tblExcluded, []⟩, 0, 0⟩ :=
  (C5_filter_iff toNatTime tblExcluded).2.2 (by decide) (by decide)

/-- C6: when any required column is absent after header cleanup, the run
fails with a schema error whose payload carries both the missing columns
and the full required set, and no output is produced (the result is the
error, not a `ProcResult`). -/
theorem C6_schema_error (parse : String → Option Int) (t : Table)
    (h : missingCols t ≠ []) :
    process_excel parse t =
      Except.error (ProcError.schemaError (missingCols t) REQUIRED_COLS) := by
  have hne : ¬(missingCols t).isEmpty = true := by
    simpa [List.isEmpty_iff] using h
  rw [process_excel_eq_map, computePairs_missing hne]
  rfl

/-- Witness for C6: the schema failure applied to `tblMissing`, whose
header lacks the agent-name column. -/
theorem C6_schema_error_witness :
    process_excel toNatTime tblMissing =
      Except.error (ProcError.schemaError (missingCols tblMissing) REQUIRED_COLS) :=
  C6_schema_error toNatTime tblMissing (by decide)

/-- C7: given the schema check passes, the run fails with the time-parse
error exactly when some surviving record's start time does not parse; the
failure is the whole invocation's result, so no pairs and no output exist
(no partial output). -/
theorem C7_time_parse_fatal (parse : String → Option Int) (t : Table)
    (hm : missingCols t = []) :
    process_excel parse t = Except.error ProcError.timeParseError ↔
      ∃ r, r ∈ filteredRows t ∧ parse (getCell (cleanedCols t) r COL_TIME) = none := by
  have hm2 : (missingCols t).isEmpty = true := by simp [hm]
  constructor
  · intro h
    rcases hpr : parseRecs parse (cleanedCols t) (filteredRows t) 0 with _ | recs
    · exact (parseRecs_eq_none_iff parse (cleanedCols t) (filteredRows t) 0).1 hpr
    · have hcp : computePairs parse t = Except.ok
          ⟨cleanedCols t, filteredRows t, allPairs (cleanedCols t) recs⟩ := by
        unfold computePairs
        rw [if_pos hm2, hpr]
      rw [process_excel_eq_map, hcp] at h
      cases h
  · intro hex
    have hpr := (parseRecs_eq_none_iff parse (cleanedCols t) (filteredRows t) 0).2 hex
    rw [process_excel_eq_map, computePairs_parse_fail hm2 hpr]
    rfl

/-- Witness for C7: the fatal time-parse failure applied to `tblBadTime`,
whose only (surviving) record has start time `"abc"`. -/
theorem C7_time_parse_fatal_witness :
    process_excel toNatTime tblBadTime = Except.error ProcError.timeParseError :=
  (C7_time_parse_fatal toNatTime tblBadTime (by decide)).2
    ⟨["abc", "13800000000", "A", "A", "101", "X"], by decide, by decide⟩

/-- C8: when the pairing stages produce zero pairs, the run still succeeds:
both output tables carry the full cleaned original header (one column per
source column, in order) and zero data rows, and the returned counts are
(0, 0). -/
theorem C8_zero_pairs (parse : String → Option Int) (t : Table)
    (s : PairingResult) (h : computePairs parse t = Except.ok s)
    (hp : s.pairs = []) :
    process_excel parse t =
      Except.ok ⟨⟨cleanedCols t, []⟩, ⟨cleanedCols t, []⟩, 0, 0⟩ ∧
    cleanedCols t = t.cols.map clean_col := by
  obtain ⟨hcols, _, _, _, _⟩ := computePairs_ok h
  refine ⟨?_, rfl⟩
  rw [process_excel_eq_map, h]
  simp [Except.map, hp, hcols]

/-- Witness for C8: the zero-pair outcome applied to Scenario C
(`tblExcluded`). -/
theorem C8_zero_pairs_witness :
    process_excel toNatTime tblExcluded =
      Except.ok ⟨⟨cleanedCols tblExcluded, []⟩, ⟨cleanedCols tblExcluded, []⟩, 0, 0⟩ ∧
    cleanedCols tblExcluded = tblExcluded.cols.map clean_col :=
  C8_zero_pairs toNatTime tblExcluded ⟨REQUIRED_COLS, [], []⟩ (by decide) rfl

/-- C1, counterexample: the claim that each output row is byte-for-byte
identical to the corresponding source row fails.  On `tblWs` the emitted
pair's predecessor row is written with answered group `"AB"`, while the
corresponding source row holds `"A B"`: the in-place normalization of
step 3 of the source is visible in the output. -/
theorem C1_roundtrip_counterexample :
    process_excel toNatTime tblWs =
      Except.ok ⟨⟨REQUIRED_COLS,
        [["0", "13800000000", "AB", "AB", "101", "X"],
         ["3600", "13800000000", "AB", "AB", "102", "Y"]]⟩,
        ⟨REQUIRED_COLS, []⟩, 1, 0⟩ ∧
    tblWs.rows.getD 0 [] = ["0", "13800000000", "A B", "AB", "101", "X"] ∧
    (["0", "13800000000", "AB", "AB", "101", "X"] : Row) ≠
      ["0", "13800000000", "A B", "AB", "101", "X"] := by
  refine ⟨by decide, by decide, by decide⟩

/-- C1, amended: each row written to either output table is byte-for-byte
the corresponding source row after field normalization (caller-number
prefix stripping; whitespace and `"nan"` cleanup of the four categorical
fields); every cell in a column other than those five is byte-for-byte the
source cell. -/
theorem C1_output_rows_normalized (parse : String → Option Int) (t : Table)
    (res : ProcResult) (h : process_excel parse t = Except.ok res)
    (row : Row) (hrow : row ∈ res.same.rows ∨ row ∈ res.cross.rows) :
    (∃ src, src ∈ t.rows ∧ row = normalizeRow (cleanedCols t) src) ∧
    (∀ (cols : List String) (r : Row) (c : String), c ≠ COL_CALLER → c ∉ CAT_COLS →
      getCell cols (normalizeRow cols r) c = getCell cols r c) := by
  obtain ⟨s, hcp, hres⟩ := process_excel_ok h
  obtain ⟨hcols, hkept, recs, hrecs, hpairs⟩ := computePairs_ok hcp
  constructor
  · by_cases hemp : s.pairs.isEmpty
    · rw [if_pos hemp] at hres
      subst hres
      rcases hrow with hrow | hrow <;> cases hrow
    · rw [if_neg hemp] at hres
      subst hres
      have hex : ∃ p, p ∈ s.pairs ∧
          (row = s.kept.getD p.ridA [] ∨ row = s.kept.getD p.ridB []) := by
        rcases hrow with hrow | hrow <;>
          rcases mem_pairs_to_original_rows hrow with ⟨p, hpf, hr⟩ <;>
          exact ⟨p, List.mem_of_mem_filter hpf, hr⟩
      rcases hex with ⟨p, hp, hr⟩
      rw [hpairs] at hp
      obtain ⟨a, b, ha, hb, _, _, rfl⟩ := exists_recs_of_mem_allPairs hp
      obtain ⟨halt, haeq, _⟩ := mem_of_parseRecs_zero hrecs ha
      obtain ⟨hblt, hbeq, _⟩ := mem_of_parseRecs_zero hrecs hb
      rcases hr with hr | hr
      · rw [hkept] at hr
        have hmem : row ∈ filteredRows t := hr ▸ getD_mem_of_lt halt
        rcases mem_filteredRows hmem with ⟨_, src, hsrc, heq⟩
        exact ⟨src, hsrc, heq⟩
      · rw [hkept] at hr
        have hmem : row ∈ filteredRows t := hr ▸ getD_mem_of_lt hblt
        rcases mem_filteredRows hmem with ⟨_, src, hsrc, heq⟩
        exact ⟨src, hsrc, heq⟩
  · intro cols r c hc1 hc2
    rw [getCell_normalizeRow]
    split
    · unfold normField
      rw [if_neg hc1, if_neg hc2]
    · rfl

/-- Witness for the amended C1: the first same-group output row of `tblWs`
is the normalization of the first source row. -/
theorem C1_output_rows_normalized_witness :
    (∃ src, src ∈ tblWs.rows ∧
      (["0", "13800000000", "AB", "AB", "101", "X"] : Row) =
        normalizeRow (cleanedCols tblWs) src) ∧
    (∀ (cols : List String) (r : Row) (c : String), c ≠ COL_CALLER → c ∉ CAT_COLS →
      getCell cols (normalizeRow cols r) c = getCell cols r c) :=
  C1_output_rows_normalized toNatTime tblWs
    ⟨⟨REQUIRED_COLS,
      [["0", "13800000000", "AB", "AB", "101", "X"],
       ["3600", "13800000000", "AB", "AB", "102", "Y"]]⟩,
      ⟨REQUIRED_COLS, []⟩, 1, 0⟩
    (by decide)
    ["0", "13800000000", "AB", "AB", "101", "X"]
    (Or.inl (by decide))

/-- C10: filtering and classification see normalized values: `normCat`
leaves no whitespace character, a whitespace-only value becomes empty (and
such an agent name drops the record), values equal up to whitespace
normalize identically, a value lowercasing to `"nan"` becomes empty, and
concretely the `tblWs` pair with predecessor answered group `"A B"` and
successor inbound group `"AB"` is classified same-group. -/
theorem C10_normalized_comparison :
    (∀ (s : String) (c : Char), c ∈ (normCat s).data → isPySpace c = false) ∧
    (∀ s : String, (∀ c ∈ s.data, isPySpace c = true) → normCat s = "") ∧
    (∀ s u : String,
      s.data.filter (fun c => !isPySpace c) = u.data.filter (fun c => !isPySpace c) →
      normCat s = normCat u) ∧
    (∀ s : String, lowerStr (eraseWs s) = "nan" → normCat s = "") ∧
    (∀ (cols : List String) (row : Row), COL_NAME ∈ cols →
      (∀ c ∈ (getCell cols row COL_NAME).data, isPySpace c = true) →
      keepRow cols (normalizeRow cols row) = false) ∧
    computePairs toNatTime tblWs = Except.ok ⟨REQUIRED_COLS,
      [["0", "13800000000", "AB", "AB", "101", "X"],
       ["3600", "13800000000", "AB", "AB", "102", "Y"]],
      [⟨"没跨组", 0, 1⟩]⟩ := by
  refine ⟨?_, fun s h => normCat_of_all_space h, ?_, ?_, ?_, by decide⟩
  · intro s c hc
    unfold normCat at hc
    split at hc
    · cases hc
    · have := List.mem_filter.1 hc
      simpa using this.2
  · intro s u h
    unfold normCat eraseWs
    rw [h]
  · intro s h
    unfold normCat
    rw [if_pos h]
  · intro cols row hmem hws
    exact keepRow_normalizeRow_of_space_name hmem hws

/-- Witness for C10: a record whose agent-name cell is whitespace only is
dropped by the filter. -/
theorem C10_normalized_comparison_witness :
    keepRow REQUIRED_COLS (normalizeRow REQUIRED_COLS wsOnlyRow) = false :=
  C10_normalized_comparison.2.2.2.2.1 REQUIRED_COLS wsOnlyRow (by decide) (by decide)

end CallRepeat
